import Mathlib

/-!
Verification of the domain-aware prediction and class-backmapping engine of
`Orange/base.py` (class `Model`).  Pure fragments of the Python source are
translated into executable Lean definitions: numpy float arrays of class
indices become `List (Option ℚ)` (with `none` standing for NaN), probability
matrices become `List (List ℚ)`, and the collaborating `Orange.data`
primitives that are not part of the analysed sources are modelled from the
specification where noted.
-/

namespace Orange

/-- Modelled from the spec: a discrete or continuous variable.  `vid` stands
for the Python object identity (`is` comparison), while `varEq` below models
the `==` comparison, under which two distinct objects with the same name,
kind and value-set are equal.  `values` is the ordered value-set of a
discrete variable. -/
structure Variable where
  vid : ℕ
  name : String
  isDiscrete : Bool
  values : List String
deriving DecidableEq

/-- Modelled from the spec: `Variable.__eq__` — same name, same kind and same
value-set; object identity is not required. -/
def varEq (a b : Variable) : Bool :=
  decide (a.name = b.name ∧ a.isDiscrete = b.isDiscrete ∧ a.values = b.values)

/-- A backmapper: partial map from a model class index (as a float) to a
query class index, `none` standing for NaN (undefined). -/
def Bm : Type := ℚ → Option ℚ

/-- Modelled from the spec: `dataclass.get_mapper_from(modelclass)` — maps
each model category index to the index of the same category label in the
query value-set, or to NaN when the query value-set lacks that category.
Non-integral or out-of-range inputs map to NaN. -/
def mapperFrom (dataVals modelVals : List String) : Bm :=
  fun x =>
    if x.den = 1 ∧ 0 ≤ x.num ∧ x.num.toNat < modelVals.length then
      (dataVals.findIdx? (fun s => s = modelVals.getD x.num.toNat "")).map
        (fun i => (i : ℚ))
    else
      none

/-- The errors raised by the prediction pipeline of `Model`:
`DomainTransformationError` variants (class-count mismatch, wrong target,
incompatible variable, all-undefined transform result), `ValueError`
variants (`invalidRet`, `continuousDistr`) and `TypeError` (`unrecognized`). -/
inductive PredErr where
  | classCountMismatch
  | wrongTarget (modelName dataName : String)
  | incompatible (name : String)
  | noDefinedValues
  | invalidRet
  | continuousDistr
  | unrecognized
  | broadcastMismatch
deriving DecidableEq

/-- The per-pair loop of `Model.get_backmappers`: for each
`(dataclass, modelclass)` pair, raise on `!=`-inequality (distinguishing the
different-name and same-name cases), otherwise record
`is_discrete and len(values)` and, when the objects are distinct and the
data class is discrete, the index mapper. -/
def backmapLoop : List (Variable × Variable) → Except PredErr (List (Option Bm) × List ℕ)
  | [] => .ok ([], [])
  | (dc, mc) :: rest =>
    if varEq dc mc then
      match backmapLoop rest with
      | .error e => .error e
      | .ok (bs, ns) =>
        let n : ℕ := if dc.isDiscrete then dc.values.length else 0
        let b : Option Bm :=
          if dc ≠ mc ∧ dc.isDiscrete = true then some (mapperFrom dc.values mc.values)
          else none
        .ok (b :: bs, n :: ns)
    else if dc.name ≠ mc.name then .error (.wrongTarget mc.name dc.name)
    else .error (.incompatible mc.name)

/-- `Model.get_backmappers`, over the class-variable lists of the query data
and of the model.  A classless model or classless data yields `(None, [])`;
mismatched counts raise; otherwise the per-pair loop runs and an all-`None`
backmapper list collapses to `None`. -/
def get_backmappers (dataclasses modelclasses : List Variable) :
    Except PredErr (Option (List (Option Bm)) × List ℕ) :=
  if modelclasses.isEmpty || dataclasses.isEmpty then .ok (none, [])
  else if dataclasses.length ≠ modelclasses.length then .error .classCountMismatch
  else
    match backmapLoop (dataclasses.zip modelclasses) with
    | .error e => .error e
    | .ok (bs, ns) => .ok ((if bs.all (fun b => b.isNone) then none else some bs), ns)

/-- The column-copy loop of `Model.backmap_probs`: starting from a
zero-initialized row of width `n`, copy the entry of each model column `col`
whose mapped target is defined into the target position (`int(target)`). -/
def remapRow (bm : Bm) (n width : ℕ) (row : List ℚ) : List ℚ :=
  (List.range width).foldl
    (fun acc (col : ℕ) =>
      match bm (col : ℚ) with
      | some t => acc.set t.num.toNat (row.getD col 0)
      | none => acc)
    (List.replicate n 0)

/-- `Model.backmap_probs` on a 2-D probability matrix (the single-target
path, plus the `backmappers is None` and `backmapper is None` no-op guards):
remap every row, replace zero-total rows by all-ones with total `n_value`,
and divide each row by its total. -/
def backmap_probs (probs : List (List ℚ)) (n_values : List ℕ)
    (backmappers : Option (List (Option Bm))) : List (List ℚ) :=
  match backmappers with
  | none => probs
  | some bms =>
    match bms.getD 0 none with
    | none => probs
    | some bm =>
      let n := n_values.getD 0 0
      let width := (probs.headD []).length
      probs.map (fun row =>
        let nr := remapRow bm n width row
        let tot := nr.sum
        if tot = 0 then List.replicate n ((1 : ℚ) / n) else nr.map (fun x => x / tot))

/-- The width (`shape[1]`) of a 2-D matrix in the list model: the length of
its first row. -/
def matWidth (m : List (List ℚ)) : ℕ := (m.headD []).length

/-- The 3-D (multi-target) branch of `Model.backmap_probs`: a
zero-initialized array of shape `(len probs, len n_values, max n_values)`
whose slice `[:, i, :n_value]` receives the recursive 2-D backmapping of
target `i`; the per-target loop runs over `zip(count(), n_values,
backmappers)`, hence over the shorter of the two lists.  The slice
assignment follows numpy broadcasting: the width of the assigned block must
equal `n_value`, or be `1` (its single column is then replicated across the
`n_value` columns); any other width raises a broadcast `ValueError`, which
is reachable when a `None` per-target mapper passes its slice through at
the full `probs.shape[2]` width while this target reserves fewer columns. -/
def backmap_probs_multi (probs : List (List (List ℚ))) (n_values : List ℕ)
    (backmappers : List (Option Bm)) : Except PredErr (List (List (List ℚ))) :=
  let maxn := n_values.foldr max 0
  let k := min n_values.length backmappers.length
  let block : ℕ → List (List ℚ) := fun i =>
    backmap_probs (probs.map (fun inst => inst.getD i []))
      [n_values.getD i 0] (some [backmappers.getD i none])
  if (List.range k).all (fun i =>
      matWidth (block i) = n_values.getD i 0 ∨ matWidth (block i) = 1) then
    .ok ((List.range probs.length).map (fun r =>
      (List.range n_values.length).map (fun i =>
        (List.range maxn).map (fun j =>
          if i < k ∧ j < n_values.getD i 0 then
            if matWidth (block i) = 1 then ((block i).getD r []).getD 0 0
            else ((block i).getD r []).getD j 0
          else 0))))
  else .error .broadcastMismatch

/-- Modelled from the spec: the draw stream of a pseudo-random generator —
draw number `k` of the generator initialized with `seed` is a deterministic
function of `seed` and `k`, and every residue is attainable across draws. -/
def mtDraw (seed k : ℕ) : ℕ := seed + k

/-- Modelled from the spec: `numpy.random.RandomState(seed).choice(pool)` —
the `k`-th draw picks a pool element determined by the seeded stream,
uniformly in the sense that every pool position is attainable. -/
def npChoice (seed : ℕ) (pool : List (Option ℚ)) (k : ℕ) : Option ℚ :=
  pool.getD (mtDraw seed k % pool.length) none

/-- The sampling pool of `Model.backmap_value`'s undefined-index fallback:
`backmapper(np.arange(0, n_values[0] - 1))`, i.e. the backmapper applied to
the indices `0 .. n_values[0] - 2`. -/
def fallbackPool (bm : Bm) (n : ℕ) : List (Option ℚ) :=
  (List.range (n - 1)).map (fun (i : ℕ) => bm (i : ℚ))

/-- The assignment `value[nans] = RandomState(0).choice(pool, (np.sum(nans),))`
of `Model.backmap_value`: the `k`-th NaN entry, in order, receives the `k`-th
draw from the pool under the generator freshly seeded with `seed`. -/
def fillNans (seed : ℕ) : List (Option ℚ) → List (Option ℚ) → ℕ → List (Option ℚ)
  | [], _, _ => []
  | some x :: rest, pool, k => some x :: fillNans seed rest pool k
  | none :: rest, pool, k => npChoice seed pool k :: fillNans seed rest pool (k + 1)

/-- Helper of `argmaxQ`: scan the tail keeping the best index and value so
far; a strictly greater value replaces the best, so ties keep the first. -/
def argmaxAux : List ℚ → ℕ → ℕ → ℚ → ℕ
  | [], _, bi, _ => bi
  | x :: rest, i, bi, bv =>
    if bv < x then argmaxAux rest (i + 1) i x else argmaxAux rest (i + 1) bi bv

/-- `np.argmax` over one row: index of the first maximal entry. -/
def argmaxQ : List ℚ → ℕ
  | [] => 0
  | x :: rest => argmaxAux rest 1 0 x

/-- `Model.backmap_value` on a 1-D value array (the non-multitarget path,
plus the `backmappers is None` and `backmapper is None` no-op guards): apply
the backmapper elementwise; if no entry became NaN or the query value-set
has fewer than two categories, stop; otherwise resolve NaN entries from the
backmapped probability rows (`argmax`) when available, and otherwise from
draws of a fresh generator seeded with the constant `0` over
`backmapper(np.arange(0, n_values[0] - 1))`. -/
def backmap_value (value : List (Option ℚ)) (mapped_probs : Option (List (List ℚ)))
    (n_values : List ℕ) (backmappers : Option (List (Option Bm))) : List (Option ℚ) :=
  match backmappers with
  | none => value
  | some bms =>
    match bms.getD 0 none with
    | none => value
    | some bm =>
      let v1 := value.map (fun o => o.bind bm)
      if v1.all (fun o => o.isSome) ∨ n_values.getD 0 0 < 2 then v1
      else
        match mapped_probs with
        | some P =>
          (List.range v1.length).map (fun i =>
            match v1.getD i none with
            | some x => some x
            | none => some ((argmaxQ (P.getD i []) : ℕ) : ℚ))
        | none => fillNans 0 v1 (fallbackPool bm (n_values.getD 0 0)) 0

/-- A call of `Model.backmap_value` in an ambient process state: `ambient`
models the position of the process-wide random source at call time; the
source constructs a fresh `RandomState(0)` instead of consuming from the
process-wide source, so the ambient position does not enter the result. -/
def backmap_value_call (ambient : ℕ) (value : List (Option ℚ))
    (mapped_probs : Option (List (List ℚ))) (n_values : List ℕ)
    (backmappers : Option (List (Option Bm))) : List (Option ℚ) :=
  let _ := ambient
  backmap_value value mapped_probs n_values backmappers

/-- Modelled from the spec: a domain — an ordered attribute list plus an
ordered class-variable list. -/
structure Domain where
  attributes : List Variable
  class_vars : List Variable
deriving DecidableEq

/-- Modelled from the spec: a tabular dataset, carrying its domain and a
feature matrix whose entries may be NaN (`none`). -/
structure Dataset where
  domain : Domain
  X : List (List (Option ℚ))
deriving DecidableEq

/-- Modelled from the spec: a single labeled row carrying its own domain. -/
structure Instance where
  domain : Domain
  x : List (Option ℚ)
deriving DecidableEq

/-- Modelled from the spec: elementwise `==` on variable tuples, as used by
`self.original_domain.attributes != data.domain.attributes`. -/
def attrsEq (a b : List Variable) : Bool :=
  decide (a.length = b.length) && (a.zip b).all (fun p => varEq p.1 p.2)

/-- Modelled from the spec: `Domain.__eq__` — attribute list and
class-variable list equal under variable `==`. -/
def domEq (a b : Domain) : Bool :=
  attrsEq a.attributes b.attributes && attrsEq a.class_vars b.class_vars

/-- `data.X.size`: the number of entries of the feature matrix. -/
def sizeX (X : List (List (Option ℚ))) : ℕ := (X.map List.length).sum

/-- `all_nan(X)`: every entry undefined (vacuously true for an empty
matrix, as for numpy `all`). -/
def all_nan (X : List (List (Option ℚ))) : Bool :=
  X.all (fun r => r.all (fun o => o.isNone))

/-- The model as `Model.__call__` sees it: the inference domain and the
original (pre-preprocessing) domain. -/
structure Mdl where
  domain : Domain
  original_domain : Domain

/-- The closure `data_to_model_domain` of `Model.__call__`, with the domain
transform primitive `tr` passed as the external collaborator it is: identity
fast path on equal domains; routed through the original domain (with the
all-undefined guard) when the attribute sets differ and the data is
non-empty and not entirely NaN; direct transform otherwise. -/
def data_to_model_domain (domain original_domain : Domain)
    (tr : Dataset → Domain → Dataset) (data : Dataset) : Except PredErr Dataset :=
  if domEq data.domain domain then .ok data
  else if attrsEq original_domain.attributes data.domain.attributes = false
      ∧ sizeX data.X ≠ 0 ∧ all_nan data.X = false then
    let new_data := tr data original_domain
    if all_nan new_data.X then .error .noDefinedValues
    else .ok (tr new_data domain)
  else .ok (tr data domain)

/-- Modelled from the spec: `one_hot(value)` — synthesize a one-hot
probability row per value, with width one more than the largest
(integer-cast) value. -/
def one_hot (values : List (Option ℚ)) : List (List ℚ) :=
  let toIdx : Option ℚ → ℕ := fun o => ((o.getD 0).floor).toNat
  let dim := (values.map toIdx).foldr max 0 + 1
  values.map (fun v => (List.range dim).map (fun j => if toIdx v = j then (1 : ℚ) else 0))

/-- The shapes a raw predictor can return for a single-target model: a 1-D
value array, a 2-D probability array, or a `(value, probs)` pair. -/
inductive PredResult where
  | vals (v : List (Option ℚ))
  | probs (p : List (List ℚ))
  | valsProbs (v : List (Option ℚ)) (p : List (List ℚ))
deriving DecidableEq

/-- The parse step of `Model.__call__`: split a prediction into its value
and probability components. -/
def parsePred : PredResult → Option (List (Option ℚ)) × Option (List (List ℚ))
  | .vals v => (some v, none)
  | .probs p => (none, some p)
  | .valsProbs v p => (some v, some p)

/-- The recognized input containers of `Model.__call__`: a labeled instance,
a bare list (first element not a list), a list of rows, a 1-D dense array, a
2-D dense array, a sparse matrix, or a tabular dataset. -/
inductive InData where
  | inst (i : Instance)
  | raw (xs : List (Option ℚ))
  | rows (xss : List (List (Option ℚ)))
  | arr1 (xs : List (Option ℚ))
  | arr2 (xss : List (List (Option ℚ)))
  | sparse (xss : List (List (Option ℚ)))
  | table (t : Dataset)
deriving DecidableEq

/-- The 1-D-to-2-D normalization step of `Model.__call__`: an instance is
wrapped into a one-row table over its own domain, a bare list into a
one-row list of rows, a 1-D array into a 1×N array, each remembering
`one_d = true`; everything else passes through with `one_d = false`. -/
def normalize : InData → InData × Bool
  | .inst i => (.table ⟨i.domain, [i.x]⟩, true)
  | .raw xs => (.rows [xs], true)
  | .arr1 xs => (.arr2 [xs], true)
  | d => (d, false)

/-- The predictor-dispatch step of `Model.__call__`: arrays and sparse
matrices go straight to `predict`; tables resolve backmappers, transform
into the model domain and use `predict_storage`; lists of rows are built
into a table over the original domain and transformed.  Returns the data
object bound at the end of the dispatch together with the prediction, the
backmappers and the value counts. -/
def runPredict (M : Mdl) (pred : List (List (Option ℚ)) → PredResult)
    (tr : Dataset → Domain → Dataset) :
    InData → Except PredErr (InData × PredResult × Option (List (Option Bm)) × List ℕ)
  | .arr2 xss => .ok (.arr2 xss, pred xss, none, [])
  | .sparse xss => .ok (.sparse xss, pred xss, none, [])
  | .table t =>
    match get_backmappers t.domain.class_vars M.domain.class_vars with
    | .error e => .error e
    | .ok (bms, nvals) =>
      match data_to_model_domain M.domain M.original_domain tr t with
      | .error e => .error e
      | .ok t2 => .ok (.table t2, pred t2.X, bms, nvals)
  | .rows xss =>
    let t := tr ⟨M.original_domain, xss⟩ M.domain
    .ok (.table t, pred t.X, none, [])
  | .inst _ => .error .unrecognized
  | .raw _ => .error .unrecognized
  | .arr1 _ => .error .unrecognized

/-- A returned array with the batch dimension possibly removed. -/
inductive Dim (α : Type) where
  | scalar (a : α)
  | batch (l : List α)
deriving DecidableEq

/-- A single returned value: a bare numeric index (possibly NaN) or a
labeled `Value` over a class variable. -/
inductive OutVal where
  | num (x : Option ℚ)
  | val (var : Variable) (x : Option ℚ)
deriving DecidableEq

/-- The overall result of `Model.__call__`: value, probabilities, or both. -/
inductive CallOut where
  | v (x : Dim OutVal)
  | p (x : Dim (List ℚ))
  | vp (x : Dim OutVal) (y : Dim (List ℚ))
deriving DecidableEq

/-- The closure `fix_dim` of `Model.__call__`: take element 0 when the
normalized input was one-dimensional. -/
def fix_dim {α : Type} (one_d : Bool) (dflt : α) (l : List α) : Dim α :=
  if one_d then .scalar (l.getD 0 dflt) else .batch l

/-- Removal of batch dimension 0 from an assembled result. -/
def unwrap0 : CallOut → CallOut
  | .v (.batch l) => .v (.scalar (l.getD 0 (.num none)))
  | .p (.batch l) => .p (.scalar (l.getD 0 []))
  | .vp (.batch l) (.batch m) => .vp (.scalar (l.getD 0 (.num none))) (.scalar (m.getD 0 []))
  | other => other

/-- Whether an assembled result kept the batch dimension. -/
def isBatch : CallOut → Bool
  | .v (.batch _) => true
  | .p (.batch _) => true
  | .vp (.batch _) (.batch _) => true
  | _ => false

/-- The tail of `Model.__call__` for a single-target model, after input
normalization and dispatch: parse the prediction, synthesize one-hot
probabilities when missing but needed, backmap probabilities, derive or
backmap the value, wrap the value into a labeled `Value` when the data
object is still an instance, and apply `fix_dim` per the requested mode. -/
def callTail (M : Mdl) (ret : ℕ) (one_d : Bool)
    (rp : Except PredErr (InData × PredResult × Option (List (Option Bm)) × List ℕ)) :
    Except PredErr CallOut :=
  match rp with
  | .error e => .error e
  | .ok (dFinal, pres, bms, nvals) =>
    let vp := parsePred pres
    let p1 : Option (List (List ℚ)) :=
      match vp.2 with
      | some p => some p
      | none => if ret ≠ 0 ∨ bms.isSome then some (one_hot (vp.1.getD [])) else none
    let p2 := p1.map (fun p => backmap_probs p nvals bms)
    let v2 : Option (List (Option ℚ)) :=
      if ret ≠ 1 then
        match vp.1 with
        | none => p2.map (fun p => p.map (fun row => some ((argmaxQ row : ℕ) : ℚ)))
        | some v => some (backmap_value v p2 nvals bms)
      else vp.1
    if ret = 1 then .ok (.p (fix_dim one_d [] (p2.getD [])))
    else
      let v3 : List OutVal :=
        match dFinal with
        | .inst _ =>
          [OutVal.val (M.domain.class_vars.getD 0 ⟨0, "", false, []⟩)
            ((v2.getD []).getD 0 none)]
        | _ => (v2.getD []).map OutVal.num
      if ret = 0 then .ok (.v (fix_dim one_d (.num none) v3))
      else .ok (.vp (fix_dim one_d (.num none) v3) (fix_dim one_d [] (p2.getD [])))

/-- `Model.__call__` for a single-target model: validate the requested
mode, reject probability requests over a continuous class variable,
normalize the input, dispatch to the predictor and assemble the result. -/
def callSingle (M : Mdl) (pred : List (List (Option ℚ)) → PredResult)
    (tr : Dataset → Domain → Dataset) (ret : ℕ) (data0 : InData) :
    Except PredErr CallOut :=
  if ret > 2 then .error .invalidRet
  else if 0 < ret ∧ M.domain.class_vars.any (fun v => !v.isDiscrete) then
    .error .continuousDistr
  else
    let nd := normalize data0
    callTail M ret nd.2 (runPredict M pred tr nd.1)

/-- Modelled from the spec: the values an entry of a model's `__dict__` can
hold. -/
inductive PyVal where
  | pynone
  | table (t : Dataset)
  | domainv (d : Domain)
  | str (s : String)
  | num (q : ℚ)
deriving DecidableEq

/-- Lookup of a key in a `__dict__` modelled as an association list. -/
def pyLookup (d : List (String × PyVal)) (k : String) : Option PyVal :=
  (d.find? (fun kv => kv.1 = k)).map (fun kv => kv.2)

/-- `Model.__getstate__` over the model's `__dict__`: when the key
`original_data` is present, the returned state is a copy with that entry
set to `None` and the model's own `__dict__` is untouched; the first
component is the model's `__dict__` after the call, the second the
returned state. -/
def getstate (d : List (String × PyVal)) :
    List (String × PyVal) × List (String × PyVal) :=
  if d.any (fun kv => kv.1 = "original_data") then
    (d, d.map (fun kv => if kv.1 = "original_data" then (kv.1, PyVal.pynone) else kv))
  else (d, d)

/-! Helper lemmas. -/

lemma getD_map_of_lt {α β : Type} (f : α → β) (l : List α) (i : ℕ) (d : α)
    (h : i < l.length) : (l.map f).getD i (f d) = f (l.getD i d) := by
  induction l generalizing i with
  | nil => simp at h
  | cons a t ih =>
    cases i with
    | zero => simp
    | succ m =>
      simp only [List.map_cons, List.getD_cons_succ]
      exact ih m (by simpa using Nat.lt_of_succ_lt_succ h)

lemma remapRow_length (bm : Bm) (n width : ℕ) (row : List ℚ) :
    (remapRow bm n width row).length = n := by
  unfold remapRow
  have h : ∀ (l : List ℕ) (acc : List ℚ),
      (l.foldl (fun acc (col : ℕ) =>
        match bm (col : ℚ) with
        | some t => acc.set t.num.toNat (row.getD col 0)
        | none => acc) acc).length = acc.length := by
    intro l
    induction l with
    | nil => intro acc; rfl
    | cons a t ih =>
      intro acc
      rw [List.foldl_cons, ih]
      cases hba : bm (a : ℚ) <;> simp
  rw [h, List.length_replicate]

lemma sum_map_div (l : List ℚ) (s : ℚ) :
    (l.map (fun x => x / s)).sum = l.sum / s := by
  induction l with
  | nil => simp
  | cons a t ih => simp [ih, add_div]

/-- C1: for a single-target probability backmapping with a non-trivial
translation table and a non-empty query value-set, `backmap_probs` returns
one row per input row, each of width `n` (the query value-set size) and
summing to `1`; a row whose remapped total is zero becomes the uniform
distribution over the query value-set. -/
theorem backmap_probs_single_rowsum (probs : List (List ℚ)) (n : ℕ) (bm : Bm)
    (hn : 0 < n) :
    (backmap_probs probs [n] (some [some bm])).length = probs.length ∧
    (∀ r ∈ backmap_probs probs [n] (some [some bm]), r.length = n ∧ r.sum = 1) ∧
    (∀ i, ∀ hi : i < probs.length,
      (remapRow bm n (probs.headD []).length probs[i]).sum = 0 →
        (backmap_probs probs [n] (some [some bm])).getD i [] =
          List.replicate n ((1 : ℚ) / n)) := by
  have hcast : ((n : ℚ)) ≠ 0 := Nat.cast_ne_zero.mpr hn.ne'
  have hbp : backmap_probs probs [n] (some [some bm]) =
      probs.map (fun row =>
        let nr := remapRow bm n ((probs.headD []).length) row
        if nr.sum = 0 then List.replicate n ((1 : ℚ) / n)
        else nr.map (fun x => x / nr.sum)) := rfl
  refine ⟨by rw [hbp]; exact List.length_map _ _, ?_, ?_⟩
  · intro r hr
    rw [hbp] at hr
    obtain ⟨row, hrow, rfl⟩ := List.mem_map.mp hr
    by_cases h0 : (remapRow bm n ((probs.headD []).length) row).sum = 0
    · simp only [h0, if_true]
      constructor
      · exact List.length_replicate _ _
      · rw [List.sum_replicate, nsmul_eq_mul, mul_one_div, div_self hcast]
    · simp only [h0, if_false]
      constructor
      · rw [List.length_map, remapRow_length]
      · rw [sum_map_div, div_self h0]
  · intro i hi hz
    rw [hbp]
    rw [List.getD_eq_getElem _ _ (by simpa using hi)]
    rw [List.getElem_map]
    simp only [hz, if_true]

/-- Witness for C1 at a concrete remapping of a three-category model onto a
two-category query value-set. -/
theorem backmap_probs_single_rowsum_witness :
    0 < 2 ∧
    ∀ r ∈ backmap_probs [[(1 : ℚ)/2, (1 : ℚ)/4, (1 : ℚ)/4]] [2]
        (some [some (mapperFrom ["a", "b"] ["a", "b", "c"])]),
      r.length = 2 ∧ r.sum = 1 :=
  ⟨by norm_num, (backmap_probs_single_rowsum _ _ _ (by norm_num)).2.1⟩

lemma backmapLoop_error_iff (l : List (Variable × Variable)) :
    (∃ e, backmapLoop l = .error e) ↔ ∃ p ∈ l, varEq p.1 p.2 = false := by
  induction l with
  | nil => simp [backmapLoop]
  | cons hd t ih =>
    obtain ⟨dc, mc⟩ := hd
    by_cases hv : varEq dc mc
    · cases hr : backmapLoop t with
      | error e =>
        simp only [backmapLoop, hv, if_true, hr]
        constructor
        · intro _
          obtain ⟨p, hp, hpe⟩ := ih.mp ⟨e, hr⟩
          exact ⟨p, List.mem_cons_of_mem _ hp, hpe⟩
        · intro _; exact ⟨e, rfl⟩
      | ok r =>
        obtain ⟨bs, ns⟩ := r
        simp only [backmapLoop, hv, if_true, hr]
        constructor
        · rintro ⟨e, he⟩; cases he
        · rintro ⟨p, hp, hpe⟩
          rcases List.mem_cons.mp hp with h | h
          · rw [h] at hpe; simp [hv] at hpe
          · obtain ⟨e, he⟩ := ih.mpr ⟨p, h, hpe⟩
            rw [he] at hr; cases hr
    · have hv' : varEq dc mc = false := by simpa using hv
      by_cases hname : dc.name = mc.name
      · simp only [backmapLoop, hv', if_false, hname, ite_not, if_true]
        exact ⟨fun _ => ⟨(dc, mc), List.mem_cons_self _ _, hv'⟩, fun _ => ⟨_, rfl⟩⟩
      · simp only [backmapLoop, hv', if_false, hname, ite_not]
        refine ⟨fun _ => ⟨(dc, mc), List.mem_cons_self _ _, hv'⟩, fun _ => ?_⟩
        exact ⟨PredErr.wrongTarget mc.name dc.name, by simp⟩

lemma backmapLoop_wrongTarget (l : List (Variable × Variable)) (mn dn : String)
    (h : backmapLoop l = .error (.wrongTarget mn dn)) :
    ∃ p ∈ l, varEq p.1 p.2 = false ∧ p.1.name ≠ p.2.name := by
  induction l with
  | nil => cases h
  | cons hd t ih =>
    obtain ⟨dc, mc⟩ := hd
    by_cases hv : varEq dc mc
    · cases hr : backmapLoop t with
      | error e =>
        rw [backmapLoop, if_pos hv, hr] at h
        cases h
        obtain ⟨p, hp, hpe⟩ := ih hr
        exact ⟨p, List.mem_cons_of_mem _ hp, hpe⟩
      | ok r =>
        obtain ⟨bs, ns⟩ := r
        rw [backmapLoop, if_pos hv, hr] at h
        cases h
    · have hv' : varEq dc mc = false := by simpa using hv
      by_cases hname : dc.name = mc.name
      · rw [backmapLoop, if_neg (by simp [hv']), if_neg (by simp [hname])] at h
        cases h
      · exact ⟨(dc, mc), List.mem_cons_self _ _, hv', hname⟩

lemma backmapLoop_incompatible (l : List (Variable × Variable)) (nm : String)
    (h : backmapLoop l = .error (.incompatible nm)) :
    ∃ p ∈ l, varEq p.1 p.2 = false ∧ p.1.name = p.2.name := by
  induction l with
  | nil => cases h
  | cons hd t ih =>
    obtain ⟨dc, mc⟩ := hd
    by_cases hv : varEq dc mc
    · cases hr : backmapLoop t with
      | error e =>
        rw [backmapLoop, if_pos hv, hr] at h
        cases h
        obtain ⟨p, hp, hpe⟩ := ih hr
        exact ⟨p, List.mem_cons_of_mem _ hp, hpe⟩
      | ok r =>
        obtain ⟨bs, ns⟩ := r
        rw [backmapLoop, if_pos hv, hr] at h
        cases h
    · have hv' : varEq dc mc = false := by simpa using hv
      by_cases hname : dc.name = mc.name
      · exact ⟨(dc, mc), List.mem_cons_self _ _, hv', hname⟩
      · rw [backmapLoop, if_neg (by simp [hv']), if_pos (by simp [hname])] at h
        cases h

/-- C4: with both class-variable lists non-empty, `get_backmappers` raises a
domain-transformation error exactly when the counts differ or some paired
class variables are `==`-unequal; a count mismatch raises the count error, a
`wrongTarget` error comes from an unequal pair with different names, and an
`incompatible` error (a distinct error constructor) from an unequal pair
sharing a name; otherwise mappings are returned without error. -/
theorem get_backmappers_error_taxonomy (dcs mcs : List Variable)
    (hd : dcs ≠ []) (hm : mcs ≠ []) :
    ((∃ e, get_backmappers dcs mcs = .error e) ↔
      (dcs.length ≠ mcs.length ∨ ∃ p ∈ dcs.zip mcs, varEq p.1 p.2 = false)) ∧
    (dcs.length ≠ mcs.length →
      get_backmappers dcs mcs = .error .classCountMismatch) ∧
    (∀ mn dn, get_backmappers dcs mcs = .error (.wrongTarget mn dn) →
      ∃ p ∈ dcs.zip mcs, varEq p.1 p.2 = false ∧ p.1.name ≠ p.2.name) ∧
    (∀ nm, get_backmappers dcs mcs = .error (.incompatible nm) →
      ∃ p ∈ dcs.zip mcs, varEq p.1 p.2 = false ∧ p.1.name = p.2.name) := by
  have hde : dcs.isEmpty = false := by simpa [List.isEmpty_iff] using hd
  have hme : mcs.isEmpty = false := by simpa [List.isEmpty_iff] using hm
  by_cases hl : dcs.length = mcs.length
  · have hgb : get_backmappers dcs mcs =
        match backmapLoop (dcs.zip mcs) with
        | .error e => .error e
        | .ok (bs, ns) =>
          .ok ((if bs.all (fun b => b.isNone) then none else some bs), ns) := by
      rw [get_backmappers, hde, hme]
      simp [hl]
    cases hr : backmapLoop (dcs.zip mcs) with
    | error e =>
      rw [hr] at hgb
      refine ⟨⟨fun _ => Or.inr (backmapLoop_error_iff _ |>.mp ⟨e, hr⟩), fun _ => ⟨e, hgb⟩⟩,
        fun hc => absurd hl hc, ?_, ?_⟩
      · intro mn dn hwt
        rw [hgb] at hwt
        cases hwt
        exact backmapLoop_wrongTarget _ _ _ hr
      · intro nm hic
        rw [hgb] at hic
        cases hic
        exact backmapLoop_incompatible _ _ hr
    | ok r =>
      obtain ⟨bs, ns⟩ := r
      rw [hr] at hgb
      have hnoerr : ∀ e, get_backmappers dcs mcs ≠ .error e := by
        intro e he
        rw [hgb] at he
        cases he
      refine ⟨⟨fun ⟨e, he⟩ => absurd he (hnoerr e), ?_⟩,
        fun hc => absurd hl hc,
        fun mn dn h => absurd h (hnoerr _),
        fun nm h => absurd h (hnoerr _)⟩
      rintro (hc | hp)
      · exact absurd hl hc
      · obtain ⟨e, he⟩ := backmapLoop_error_iff _ |>.mpr hp
        rw [he] at hr
        cases hr
  · have hgb : get_backmappers dcs mcs = .error .classCountMismatch := by
      rw [get_backmappers, hde, hme]
      simp [hl]
    refine ⟨⟨fun _ => Or.inl hl, fun _ => ⟨_, hgb⟩⟩, fun _ => hgb, ?_, ?_⟩
    · intro mn dn h
      rw [hgb] at h
      cases h
    · intro nm h
      rw [hgb] at h
      cases h

/-- Witness for C4: a single-target model asked to predict a different
target raises the wrong-target error. -/
theorem get_backmappers_error_taxonomy_witness :
    ([⟨2, "z", true, ["a"]⟩] : List Variable) ≠ [] ∧
    ([⟨3, "y", true, ["a"]⟩] : List Variable) ≠ [] ∧
    ((∃ e, get_backmappers [⟨2, "z", true, ["a"]⟩] [⟨3, "y", true, ["a"]⟩] = .error e) ↔
      (([⟨2, "z", true, ["a"]⟩] : List Variable).length ≠
          ([⟨3, "y", true, ["a"]⟩] : List Variable).length ∨
        ∃ p ∈ ([⟨2, "z", true, ["a"]⟩] : List Variable).zip [⟨3, "y", true, ["a"]⟩],
          varEq p.1 p.2 = false)) :=
  ⟨by simp, by simp,
    (get_backmappers_error_taxonomy _ _ (by simp) (by simp)).1⟩

/-- C9: when the model or the data has no class variables at all,
`get_backmappers` reports no remapping needed and raises no error, even if
the counts differ. -/
theorem get_backmappers_classless (dcs mcs : List Variable)
    (h : dcs = [] ∨ mcs = []) :
    get_backmappers dcs mcs = .ok (none, []) := by
  rcases h with h | h <;> subst h <;> simp [get_backmappers]

/-- Witness for C9: a classless data domain against a one-class model. -/
theorem get_backmappers_classless_witness :
    (([] : List Variable) = [] ∨ ([⟨3, "y", true, ["a"]⟩] : List Variable) = []) ∧
    get_backmappers [] [⟨3, "y", true, ["a"]⟩] = .ok (none, []) :=
  ⟨Or.inl rfl, get_backmappers_classless _ _ (Or.inl rfl)⟩

/-- C5: `data_to_model_domain` passes data through unchanged when its domain
equals the inference domain; when the original attribute set differs from the
data's and the data is non-empty and not entirely NaN, it routes through the
original domain, raising the domain-transformation error exactly when that
intermediate result is entirely NaN; in every remaining case it transforms
directly into the inference domain. -/
theorem data_to_model_domain_branches (domain original_domain : Domain)
    (tr : Dataset → Domain → Dataset) (data : Dataset) :
    (domEq data.domain domain = true →
      data_to_model_domain domain original_domain tr data = .ok data) ∧
    (domEq data.domain domain = false →
      attrsEq original_domain.attributes data.domain.attributes = false →
      sizeX data.X ≠ 0 → all_nan data.X = false →
        (all_nan (tr data original_domain).X = true →
          data_to_model_domain domain original_domain tr data =
            .error .noDefinedValues) ∧
        (all_nan (tr data original_domain).X = false →
          data_to_model_domain domain original_domain tr data =
            .ok (tr (tr data original_domain) domain))) ∧
    (domEq data.domain domain = false →
      (attrsEq original_domain.attributes data.domain.attributes = true ∨
        sizeX data.X = 0 ∨ all_nan data.X = true) →
      data_to_model_domain domain original_domain tr data = .ok (tr data domain)) ∧
    ((∃ e, data_to_model_domain domain original_domain tr data = .error e) ↔
      (domEq data.domain domain = false ∧
        attrsEq original_domain.attributes data.domain.attributes = false ∧
        sizeX data.X ≠ 0 ∧ all_nan data.X = false ∧
        all_nan (tr data original_domain).X = true)) := by
  refine ⟨?_, ?_, ?_, ?_⟩
  · intro h
    simp [data_to_model_domain, h]
  · intro h h1 h2 h3
    constructor
    · intro h4
      simp [data_to_model_domain, h, h1, h2, h3, h4]
    · intro h4
      simp [data_to_model_domain, h, h1, h2, h3, h4]
  · intro h h1
    rcases h1 with h1 | h1 | h1 <;> simp [data_to_model_domain, h, h1]
  · constructor
    · rintro ⟨e, he⟩
      by_cases h : domEq data.domain domain
      · simp [data_to_model_domain, h] at he
      · have h' : domEq data.domain domain = false := by simpa using h
        by_cases h1 : attrsEq original_domain.attributes data.domain.attributes
        · simp [data_to_model_domain, h', h1] at he
        · have h1' : attrsEq original_domain.attributes data.domain.attributes = false := by
            simpa using h1
          by_cases h2 : sizeX data.X = 0
          · simp [data_to_model_domain, h', h1', h2] at he
          · by_cases h3 : all_nan data.X
            · simp [data_to_model_domain, h', h1', h2, h3] at he
            · have h3' : all_nan data.X = false := by simpa using h3
              by_cases h4 : all_nan (tr data original_domain).X
              · exact ⟨h', h1', h2, h3', h4⟩
              · simp [data_to_model_domain, h', h1', h2, h3', h4] at he
    · rintro ⟨h, h1, h2, h3, h4⟩
      exact ⟨.noDefinedValues, by simp [data_to_model_domain, h, h1, h2, h3, h4]⟩

/-- Sample variables, domains, model, data and collaborators used by the
concrete evaluations below. -/
def cvar : Variable := ⟨1, "y", true, ["no", "yes"]⟩

def avar : Variable := ⟨0, "x", false, []⟩

def avar2 : Variable := ⟨4, "w", false, []⟩

def D0 : Domain := ⟨[avar], [cvar]⟩

def D1 : Domain := ⟨[avar2], [cvar]⟩

def M0 : Mdl := ⟨D0, D0⟩

def i0 : Instance := ⟨D0, [some 0]⟩

def pred0 : List (List (Option ℚ)) → PredResult := fun _ => .vals [some 1]

def tr0 : Dataset → Domain → Dataset := fun d _ => d

/-- A transform collaborator that loses every value, for exercising the
all-NaN guard. -/
def trNan : Dataset → Domain → Dataset :=
  fun d dom => ⟨dom, d.X.map (fun r => r.map (fun _ => none))⟩

/-- Witness for C5: a dataset with a foreign attribute set whose transform
into the original domain is entirely NaN raises the guard error. -/
theorem data_to_model_domain_branches_witness :
    domEq (Dataset.mk D1 [[some 1]]).domain D0 = false ∧
    attrsEq D0.attributes (Dataset.mk D1 [[some 1]]).domain.attributes = false ∧
    sizeX (Dataset.mk D1 [[some 1]]).X ≠ 0 ∧
    all_nan (Dataset.mk D1 [[some 1]]).X = false ∧
    all_nan (trNan (Dataset.mk D1 [[some 1]]) D0).X = true ∧
    data_to_model_domain D0 D0 trNan (Dataset.mk D1 [[some 1]]) =
      .error .noDefinedValues :=
  ⟨rfl, rfl, by simp [sizeX], rfl, rfl,
    ((data_to_model_domain_branches D0 D0 trNan (Dataset.mk D1 [[some 1]])).2.1
      rfl rfl (by simp [sizeX]) rfl).1 rfl⟩

lemma find_map_original (d : List (String × PyVal))
    (h : "original_data" ∈ d.map Prod.fst) :
    (d.map (fun kv =>
      if kv.1 = "original_data" then (kv.1, PyVal.pynone) else kv)).find?
        (fun kv => kv.1 = "original_data") =
      some ("original_data", PyVal.pynone) := by
  induction d with
  | nil => simp at h
  | cons kv t ih =>
    by_cases hk : kv.1 = "original_data"
    · simp [List.find?_cons, hk]
    · have h' : "original_data" ∈ t.map Prod.fst := by
        rcases List.mem_map.mp h with ⟨p, hp, hpe⟩
        rcases List.mem_cons.mp hp with h1 | h1
        · rw [h1] at hpe; exact absurd hpe hk
        · exact List.mem_map.mpr ⟨p, h1, hpe⟩
      simpa [List.find?_cons, hk] using ih h'

lemma find_map_other (d : List (String × PyVal)) (k : String)
    (hk : k ≠ "original_data") :
    (d.map (fun kv =>
      if kv.1 = "original_data" then (kv.1, PyVal.pynone) else kv)).find?
        (fun kv => kv.1 = k) =
      d.find? (fun kv => kv.1 = k) := by
  induction d with
  | nil => simp
  | cons kv t ih =>
    by_cases h1 : kv.1 = "original_data"
    · have h2 : ¬ kv.1 = k := by rw [h1]; exact fun he => hk he.symm
      have h3 : ¬ ("original_data" = k) := fun he => hk he.symm
      simp [List.find?_cons, h1, h2, h3, ih]
    · by_cases h2 : kv.1 = k
      · simp [List.find?_cons, h1, h2, hk]
      · simp [List.find?_cons, h1, h2, ih]

/-- C10: when the model's `__dict__` holds the key `original_data`,
`__getstate__` leaves the model's own `__dict__` untouched and returns a
state in which `original_data` is `None` and every other key keeps its
current value. -/
theorem getstate_spec (d : List (String × PyVal))
    (h : "original_data" ∈ d.map Prod.fst) :
    (getstate d).1 = d ∧
    pyLookup (getstate d).2 "original_data" = some PyVal.pynone ∧
    ∀ k, k ≠ "original_data" → pyLookup (getstate d).2 k = pyLookup d k := by
  have hany : d.any (fun kv => kv.1 = "original_data") = true := by
    rcases List.mem_map.mp h with ⟨p, hp, hpe⟩
    exact List.any_eq_true.mpr ⟨p, hp, by simp [hpe]⟩
  rw [getstate, if_pos hany]
  refine ⟨rfl, ?_, ?_⟩
  · rw [pyLookup, find_map_original d h]
    rfl
  · intro k hk
    rw [pyLookup, pyLookup, find_map_other d k hk]

/-- Witness for C10 at a two-entry `__dict__`. -/
theorem getstate_spec_witness :
    "original_data" ∈
      ([("original_data", PyVal.num 3), ("name", PyVal.str "m")].map Prod.fst) ∧
    (getstate [("original_data", PyVal.num 3), ("name", PyVal.str "m")]).1 =
      [("original_data", PyVal.num 3), ("name", PyVal.str "m")] ∧
    pyLookup (getstate [("original_data", PyVal.num 3), ("name", PyVal.str "m")]).2
      "original_data" = some PyVal.pynone :=
  ⟨by simp, (getstate_spec _ (by simp)).1, (getstate_spec _ (by simp)).2.1⟩

lemma npChoice_mem (pool : List (Option ℚ)) (hp : 0 < pool.length) (k : ℕ) :
    npChoice 0 pool k ∈ pool := by
  rw [npChoice, List.getD_eq_getElem _ _ (Nat.mod_lt _ hp)]
  exact List.getElem_mem _

lemma fillNans_spec (pool : List (Option ℚ)) (hp : pool ≠ []) :
    ∀ (v : List (Option ℚ)) (k : ℕ),
      (fillNans 0 v pool k).length = v.length ∧
      ∀ i, i < v.length →
        (∀ x, v.getD i none = some x → (fillNans 0 v pool k).getD i none = some x) ∧
        (v.getD i none = none → (fillNans 0 v pool k).getD i none ∈ pool) := by
  have hplen : 0 < pool.length := List.length_pos.mpr hp
  intro v
  induction v with
  | nil =>
    intro k
    exact ⟨rfl, fun i hi => absurd hi (by simp)⟩
  | cons o t ih =>
    intro k
    cases o with
    | some x =>
      refine ⟨by simp [fillNans, (ih k).1], ?_⟩
      intro i hi
      cases i with
      | zero =>
        refine ⟨fun y hy => ?_, fun hnone => ?_⟩
        · simpa [fillNans] using hy
        · simp at hnone
      | succ m =>
        have hm : m < t.length := by simpa using Nat.lt_of_succ_lt_succ hi
        refine ⟨fun y hy => ?_, fun hnone => ?_⟩
        · have := ((ih k).2 m hm).1 y (by simpa using hy)
          simpa [fillNans] using this
        · have := ((ih k).2 m hm).2 (by simpa using hnone)
          simpa [fillNans] using this
    | none =>
      refine ⟨by simp [fillNans, (ih (k + 1)).1], ?_⟩
      intro i hi
      cases i with
      | zero =>
        refine ⟨fun y hy => ?_, fun _ => ?_⟩
        · simp at hy
        · simpa [fillNans] using npChoice_mem pool hplen k
      | succ m =>
        have hm : m < t.length := by simpa using Nat.lt_of_succ_lt_succ hi
        refine ⟨fun y hy => ?_, fun hnone => ?_⟩
        · have := ((ih (k + 1)).2 m hm).1 y (by simpa using hy)
          simpa [fillNans] using this
        · have := ((ih (k + 1)).2 m hm).2 (by simpa using hnone)
          simpa [fillNans] using this

lemma getD_map_bind (value : List (Option ℚ)) (bm : Bm) (i : ℕ)
    (h : i < value.length) :
    (value.map (fun o => o.bind bm)).getD i none = (value.getD i none).bind bm :=
  getD_map_of_lt _ value i none h

/-- The backmapper of the counterexample below: query value-set
`["b", "c"]` against model value-set `["x", "b"]`. -/
def bmCex : Bm := mapperFrom ["b", "c"] ["x", "b"]

/-- Counterexample to C2 as stated: model index `0` maps to undefined, the
query value-set has two categories and no probability rows are available,
yet the resolved entry is NaN — the sampling pool
`backmapper(arange(0, n - 1))` is `[NaN]`, so the entry does not lie in
`[0, n)` and not every valid category is a possible outcome. -/
theorem backmap_value_undefined_escapes :
    bmCex 0 = none ∧
    backmap_value [some 0] none [2] (some [some bmCex]) = [none] :=
  ⟨rfl, rfl⟩

/-- C2 (amended): with at least two query categories and no probability
rows, `backmap_value` keeps every entry whose backmapped index is defined,
and resolves every undefined entry by a deterministic draw from the pool
`backmapper(np.arange(0, n - 1))`; the resolved entry is an element of that
pool — a mapped query index or NaN — so query categories outside the pool
are never produced. -/
theorem backmap_value_fallback_pool (value : List (Option ℚ)) (n : ℕ) (bm : Bm)
    (hn : 2 ≤ n) :
    (backmap_value value none [n] (some [some bm])).length = value.length ∧
    ∀ i, i < value.length →
      (∀ x, (value.getD i none).bind bm = some x →
        (backmap_value value none [n] (some [some bm])).getD i none = some x) ∧
      ((value.getD i none).bind bm = none →
        (backmap_value value none [n] (some [some bm])).getD i none ∈
          fallbackPool bm n) := by
  have hnlt : ¬ ((2 : ℕ) ≤ 2 ∧ n < 2) := fun hc => absurd hn (Nat.not_le.mpr hc.2)
  have hpoollen : (fallbackPool bm n).length = n - 1 := by
    simp [fallbackPool]
  have hpool : fallbackPool bm n ≠ [] := by
    intro he
    rw [he] at hpoollen
    simp at hpoollen
    omega
  by_cases hall : (value.map (fun o => o.bind bm)).all (fun o => o.isSome)
  · have hout : backmap_value value none [n] (some [some bm]) =
        value.map (fun o => o.bind bm) := by
      simp [backmap_value, hall]
    rw [hout]
    refine ⟨List.length_map _ _, ?_⟩
    intro i hi
    refine ⟨fun x hx => by rw [getD_map_bind _ _ _ hi]; exact hx, fun hnone => ?_⟩
    rw [getD_map_bind _ _ _ hi] at *
    have hmem : (value.getD i none).bind bm ∈ value.map (fun o => o.bind bm) := by
      rw [← getD_map_bind _ _ _ hi]
      rw [List.getD_eq_getElem _ _ (by simpa using hi)]
      exact List.getElem_mem _
    have := List.all_eq_true.mp hall _ hmem
    rw [hnone] at this
    simp at this
  · have hout : backmap_value value none [n] (some [some bm]) =
        fillNans 0 (value.map (fun o => o.bind bm)) (fallbackPool bm n) 0 := by
      have hn2 : ¬ (n < 2) := Nat.not_lt.mpr hn
      simp [backmap_value, hall, hn2]
    rw [hout]
    have hs := fillNans_spec (fallbackPool bm n) hpool (value.map (fun o => o.bind bm)) 0
    refine ⟨by rw [hs.1, List.length_map], ?_⟩
    intro i hi
    have hi' : i < (value.map (fun o => o.bind bm)).length := by simpa using hi
    refine ⟨fun x hx => ?_, fun hnone => ?_⟩
    · exact (hs.2 i hi').1 x (by rw [getD_map_bind _ _ _ hi]; exact hx)
    · exact (hs.2 i hi').2 (by rw [getD_map_bind _ _ _ hi]; exact hnone)

/-- The backmapper of the amended-claim witness: query value-set
`["a", "b", "c"]` against model value-set `["a", "b", "x"]`. -/
def bmW : Bm := mapperFrom ["a", "b", "c"] ["a", "b", "x"]

/-- Witness for the amended C2: model index `2` is undefined under the
query value-set and is resolved to an element of the fallback pool. -/
theorem backmap_value_fallback_pool_witness :
    2 ≤ 3 ∧
    (backmap_value [some 2] none [3] (some [some bmW])).length = 1 ∧
    (backmap_value [some 2] none [3] (some [some bmW])).getD 0 none ∈
      fallbackPool bmW 3 :=
  ⟨by norm_num, (backmap_value_fallback_pool [some 2] 3 bmW (by norm_num)).1,
    ((backmap_value_fallback_pool [some 2] 3 bmW (by norm_num)).2 0
      (by norm_num)).2 rfl⟩

/-- C8: two calls of `backmap_value` with identical arguments and no
available probability rows give identical results regardless of the ambient
process-wide random state, because the fallback draws from a fresh
generator seeded with the constant `0` on each call. -/
theorem backmap_value_call_deterministic (a1 a2 : ℕ) (value : List (Option ℚ))
    (n_values : List ℕ) (backmappers : Option (List (Option Bm))) :
    backmap_value_call a1 value none n_values backmappers =
      backmap_value_call a2 value none n_values backmappers := rfl

lemma getD_range_map {α : Type} (n : ℕ) (f : ℕ → α) (i : ℕ) (d : α) (h : i < n) :
    ((List.range n).map f).getD i d = f i := by
  rw [List.getD_eq_getElem _ _ (by simpa using h), List.getElem_map, List.getElem_range]

lemma le_foldr_max (l : List ℕ) (x : ℕ) (hx : x ∈ l) : x ≤ l.foldr max 0 := by
  induction l with
  | nil => simp at hx
  | cons a t ih =>
    rcases List.mem_cons.mp hx with h | h
    · subst h
      exact le_max_left _ _
    · exact le_trans (ih h) (le_max_right _ _)

lemma matWidth_backmap_probs (probs : List (List ℚ)) (n : ℕ) (bm : Bm)
    (h : probs ≠ []) :
    matWidth (backmap_probs probs [n] (some [some bm])) = n := by
  obtain ⟨r, t, rfl⟩ := List.exists_cons_of_ne_nil h
  have hbp : backmap_probs (r :: t) [n] (some [some bm]) =
      (r :: t).map (fun row =>
        let nr := remapRow bm n (((r :: t).headD []).length) row
        if nr.sum = 0 then List.replicate n ((1 : ℚ) / n)
        else nr.map (fun x => x / nr.sum)) := rfl
  rw [hbp, List.map_cons, matWidth]
  simp only [List.headD_cons]
  by_cases h0 : (remapRow bm n r.length r).sum = 0
  · simp [h0]
  · simp [h0, remapRow_length]

/-- The per-target mapper list of the counterexample below: a no-op
(`None`) mapper for the narrower first target, a real mapper for the
second. -/
def mtBmsCex : List (Option Bm) :=
  [none, some (mapperFrom ["p", "q", "r"] ["p", "q", "r"])]

/-- Counterexample to C6 as stated: a multi-target backmapping with
cardinalities 2 and 3 where the narrower target has a `None` mapper — its
slice keeps the full width 3, which cannot broadcast into the 2 columns
reserved for that target, so `backmap_probs` raises a broadcast error
instead of returning a padded 3-D array. -/
theorem backmap_probs_multi_broadcast_cex :
    backmap_probs_multi
      [[[(1 : ℚ)/2, (1 : ℚ)/4, (1 : ℚ)/4], [(1 : ℚ)/4, (1 : ℚ)/4, (1 : ℚ)/2]]]
      [2, 3] mtBmsCex = .error .broadcastMismatch := rfl

/-- C6 (amended): for a multi-target probability backmapping in which every
per-target remapped block has width equal to that target's value count (so
the numpy slice assignments are well-formed), the returned 3-D array has
one block per input row, each block one row per target, each row of width
`max n_values`; entries at or beyond the cardinality of a target are zero
in every row, and the first `n_value` columns are the single-target
remapping of the 2-D slice of that target.  When some block width differs
(a `None` per-target mapper passing its slice through at a different
width), the assignment raises a broadcast error instead. -/
theorem backmap_probs_multi_padding (probs : List (List (List ℚ)))
    (n_values : List ℕ) (bms : List (Option Bm))
    (hlen : bms.length = n_values.length)
    (hw : ∀ i, i < n_values.length →
      matWidth (backmap_probs (probs.map (fun inst => inst.getD i []))
        [n_values.getD i 0] (some [bms.getD i none])) = n_values.getD i 0) :
    ∃ out, backmap_probs_multi probs n_values bms = .ok out ∧
      out.length = probs.length ∧
      ∀ r, r < probs.length →
        (out.getD r []).length = n_values.length ∧
        ∀ i, i < n_values.length →
          ((out.getD r []).getD i []).length = n_values.foldr max 0 ∧
          (∀ j, n_values.getD i 0 ≤ j →
            (((out.getD r []).getD i []).getD j 0) = 0) ∧
          (∀ j, j < n_values.getD i 0 →
            (((out.getD r []).getD i []).getD j 0) =
              ((backmap_probs (probs.map (fun inst => inst.getD i []))
                  [n_values.getD i 0] (some [bms.getD i none])).getD r []).getD
                j 0) := by
  have hk : min n_values.length bms.length = n_values.length := by
    rw [hlen, min_self]
  have hguard : ((List.range (min n_values.length bms.length)).all (fun i =>
      decide (matWidth (backmap_probs (probs.map (fun inst => inst.getD i []))
          [n_values.getD i 0] (some [bms.getD i none])) = n_values.getD i 0 ∨
        matWidth (backmap_probs (probs.map (fun inst => inst.getD i []))
          [n_values.getD i 0] (some [bms.getD i none])) = 1))) = true := by
    apply List.all_eq_true.mpr
    intro i hi
    have hi' : i < n_values.length := by
      have := List.mem_range.mp hi
      omega
    simp only [decide_eq_true_eq]
    exact Or.inl (hw i hi')
  have hok : backmap_probs_multi probs n_values bms =
      .ok ((List.range probs.length).map (fun r =>
        (List.range n_values.length).map (fun i =>
          (List.range (n_values.foldr max 0)).map (fun j =>
            if i < min n_values.length bms.length ∧ j < n_values.getD i 0 then
              if matWidth (backmap_probs (probs.map (fun inst => inst.getD i []))
                  [n_values.getD i 0] (some [bms.getD i none])) = 1 then
                ((backmap_probs (probs.map (fun inst => inst.getD i []))
                    [n_values.getD i 0] (some [bms.getD i none])).getD r []).getD 0 0
              else
                ((backmap_probs (probs.map (fun inst => inst.getD i []))
                    [n_values.getD i 0] (some [bms.getD i none])).getD r []).getD j 0
            else 0)))) := by
    rw [backmap_probs_multi]
    rw [if_pos hguard]
  refine ⟨_, hok, by simp, ?_⟩
  intro r hr
  rw [getD_range_map _ _ _ _ hr]
  refine ⟨by simp, ?_⟩
  intro i hi
  rw [getD_range_map _ _ _ _ hi]
  have hmax : n_values.getD i 0 ≤ n_values.foldr max 0 := by
    apply le_foldr_max
    rw [List.getD_eq_getElem _ _ hi]
    exact List.getElem_mem _
  refine ⟨by simp, ?_, ?_⟩
  · intro j hj
    by_cases hjm : j < n_values.foldr max 0
    · rw [getD_range_map _ _ _ _ hjm]
      have : ¬ (i < min n_values.length bms.length ∧ j < n_values.getD i 0) :=
        fun hc => absurd hc.2 (Nat.not_lt.mpr hj)
      rw [if_neg this]
    · apply List.getD_eq_default
      simpa using Nat.not_lt.mp hjm
  · intro j hj
    have hjm : j < n_values.foldr max 0 := lt_of_lt_of_le hj hmax
    rw [getD_range_map _ _ _ _ hjm]
    have hin : i < min n_values.length bms.length ∧ j < n_values.getD i 0 :=
      ⟨by rw [hk]; exact hi, hj⟩
    rw [if_pos hin]
    by_cases hm : matWidth (backmap_probs (probs.map (fun inst => inst.getD i []))
        [n_values.getD i 0] (some [bms.getD i none])) = 1
    · rw [if_pos hm]
      have hn1 : n_values.getD i 0 = 1 := (hw i hi).symm.trans hm
      rw [hn1] at hj
      rw [Nat.lt_one_iff.mp hj]
    · rw [if_neg hm]

/-- Concrete inputs of the amended C6 witness: two targets of
cardinalities 2 and 3, both with real mappers, over a rectangular
width-3 probability array. -/
def mtProbs : List (List (List ℚ)) :=
  [[[(1 : ℚ)/2, (1 : ℚ)/2, 0], [(1 : ℚ)/4, (1 : ℚ)/4, (1 : ℚ)/2]]]

def mtNs : List ℕ := [2, 3]

def mtBms : List (Option Bm) :=
  [some (mapperFrom ["a", "b"] ["a", "b"]),
    some (mapperFrom ["p", "q", "r"] ["p", "q", "r"])]

/-- Witness for the amended C6 with two targets of cardinalities 2 and 3. -/
theorem backmap_probs_multi_padding_witness :
    mtBms.length = mtNs.length ∧
    ∃ out, backmap_probs_multi mtProbs mtNs mtBms = .ok out ∧ out.length = 1 :=
  ⟨rfl, (backmap_probs_multi_padding mtProbs mtNs mtBms rfl
      (by
        intro i hi
        have h2 : i < 2 := by simpa [mtNs] using hi
        interval_cases i
        · exact matWidth_backmap_probs _ _ _ (by simp [mtProbs])
        · exact matWidth_backmap_probs _ _ _ (by simp [mtProbs]))).elim
      (fun out h => ⟨out, h.1, h.2.1.trans rfl⟩)⟩

lemma callTail_one_d (M : Mdl) (ret : ℕ)
    (rp : Except PredErr (InData × PredResult × Option (List (Option Bm)) × List ℕ)) :
    callTail M ret true rp = Except.map unwrap0 (callTail M ret false rp) := by
  cases rp with
  | error e => rfl
  | ok r =>
    obtain ⟨dFinal, pres, bms, nvals⟩ := r
    by_cases h1 : ret = 1
    · simp [callTail, h1, fix_dim, unwrap0, Except.map]
    · by_cases h0 : ret = 0
      · simp [callTail, h1, h0, fix_dim, unwrap0, Except.map]
      · simp [callTail, h1, h0, fix_dim, unwrap0, Except.map]

lemma callTail_batch (M : Mdl) (ret : ℕ)
    (rp : Except PredErr (InData × PredResult × Option (List (Option Bm)) × List ℕ))
    (out : CallOut) (h : callTail M ret false rp = .ok out) :
    isBatch out = true := by
  cases rp with
  | error e => cases h
  | ok r =>
    obtain ⟨dFinal, pres, bms, nvals⟩ := r
    by_cases h1 : ret = 1
    · simp [callTail, h1, fix_dim] at h
      rw [← h]
      rfl
    · by_cases h0 : ret = 0
      · simp [callTail, h1, h0, fix_dim] at h
        rw [← h]
        rfl
      · simp [callTail, h1, h0, fix_dim] at h
        rw [← h]
        rfl

lemma callSingle_batch (M : Mdl) (pred : List (List (Option ℚ)) → PredResult)
    (tr : Dataset → Domain → Dataset) (ret : ℕ) (d : InData)
    (hd : (normalize d).2 = false) (out : CallOut)
    (h : callSingle M pred tr ret d = .ok out) : isBatch out = true := by
  rw [callSingle] at h
  by_cases h2 : ret > 2
  · rw [if_pos h2] at h
    cases h
  · rw [if_neg h2] at h
    by_cases h3 : 0 < ret ∧ M.domain.class_vars.any (fun v => !v.isDiscrete)
    · rw [if_pos h3] at h
      cases h
    · rw [if_neg h3] at h
      change callTail M ret (normalize d).2 (runPredict M pred tr (normalize d).1) =
        .ok out at h
      rw [hd] at h
      exact callTail_batch _ _ _ _ h

/-- C7: an input recognized as a single row (instance, bare list, 1-D
array) produces exactly the result of the corresponding one-row batch with
batch dimension 0 removed, while batch inputs (lists of rows, 2-D arrays,
sparse matrices, tables) keep the batch dimension. -/
theorem call_single_row_unwrap (M : Mdl) (pred : List (List (Option ℚ)) → PredResult)
    (tr : Dataset → Domain → Dataset) (ret : ℕ) :
    (∀ i : Instance, callSingle M pred tr ret (.inst i) =
      Except.map unwrap0 (callSingle M pred tr ret (.table ⟨i.domain, [i.x]⟩))) ∧
    (∀ xs, callSingle M pred tr ret (.raw xs) =
      Except.map unwrap0 (callSingle M pred tr ret (.rows [xs]))) ∧
    (∀ xs, callSingle M pred tr ret (.arr1 xs) =
      Except.map unwrap0 (callSingle M pred tr ret (.arr2 [xs]))) ∧
    (∀ xss out, callSingle M pred tr ret (.rows xss) = .ok out →
      isBatch out = true) ∧
    (∀ xss out, callSingle M pred tr ret (.arr2 xss) = .ok out →
      isBatch out = true) ∧
    (∀ xss out, callSingle M pred tr ret (.sparse xss) = .ok out →
      isBatch out = true) ∧
    (∀ t out, callSingle M pred tr ret (.table t) = .ok out →
      isBatch out = true) := by
  have hmain : ∀ d d' : InData, normalize d = (d', true) → normalize d' = (d', false) →
      callSingle M pred tr ret d =
        Except.map unwrap0 (callSingle M pred tr ret d') := by
    intro d d' hnd hnd'
    rw [callSingle, callSingle, hnd, hnd']
    by_cases h2 : ret > 2
    · rw [if_pos h2, if_pos h2]
      rfl
    · rw [if_neg h2, if_neg h2]
      by_cases h3 : 0 < ret ∧ M.domain.class_vars.any (fun v => !v.isDiscrete)
      · rw [if_pos h3, if_pos h3]
        rfl
      · rw [if_neg h3, if_neg h3]
        exact callTail_one_d M ret _
  refine ⟨fun i => hmain _ _ rfl rfl, fun xs => hmain _ _ rfl rfl,
    fun xs => hmain _ _ rfl rfl,
    fun xss out h => callSingle_batch M pred tr ret (.rows xss) rfl out h,
    fun xss out h => callSingle_batch M pred tr ret (.arr2 xss) rfl out h,
    fun xss out h => callSingle_batch M pred tr ret (.sparse xss) rfl out h,
    fun t out h => callSingle_batch M pred tr ret (.table t) rfl out h⟩

/-- Witness for C7: a bare single row yields the unwrapped form of the
one-row batch result, and a batch input keeps the batch dimension. -/
theorem call_single_row_unwrap_witness :
    callSingle M0 pred0 tr0 0 (.raw [some 0]) =
      Except.map unwrap0 (callSingle M0 pred0 tr0 0 (.rows [[some 0]])) ∧
    isBatch (.v (.batch [OutVal.num (some 1)])) = true :=
  ⟨(call_single_row_unwrap M0 pred0 tr0 0).2.1 [some 0],
    (call_single_row_unwrap M0 pred0 tr0 0).2.2.2.1 [[some 0]]
      (.v (.batch [OutVal.num (some 1)])) rfl⟩

/-- C3 (evaluation at the failing input): calling a single-discrete-class
model on a labeled instance with the `Value` mode returns the bare numeric
index — the branch that would wrap it into `Value(class_var, ...)` tests
the rebound data object, which is a table by then, never an instance. -/
theorem call_instance_value_unwrapped :
    callSingle M0 pred0 tr0 0 (.inst i0) =
      .ok (.v (.scalar (.num (some 1)))) := rfl

end Orange
